import Mathlib

/-!
Shallow embedding of the media-attachment logic of the gemini-ai-sdk
package (TypeScript). The embedded functions are `getFileType`,
`isFileUpload`, `Gemini.messageToParts`, the polling loop of
`Gemini.uploadFile`, and the `Chat` session bookkeeping.

External effects are modelled by an explicit environment `Env`:
`sniff` stands for the content-signature library call
(`fileTypeFromBuffer`), `extOf` for the extension lookup
(`mime.getType`), and `upload` for the remote upload returning a file
URI. Buffers are byte lists; the base64 encoding used by the source for
inline data is a bijection on byte strings and is modelled by keeping
the raw bytes.
-/

namespace GeminiSDK

/-- The list of supported file formats, verbatim from the source. -/
def supportedFileFormats : List String :=
  ["image/png", "image/jpeg", "image/webp", "image/heic", "image/heif",
   "audio/wav", "audio/mp3", "audio/mpeg", "audio/aiff", "audio/aac",
   "audio/ogg", "audio/flac", "video/mp4", "video/mpeg", "video/mov",
   "video/avi", "video/x-flv", "video/mpg", "video/webm", "video/wmv",
   "video/3gpp", "text/plain", "text/html", "text/css", "text/javascript",
   "application/x-javascript", "text/x-typescript", "application/x-typescript",
   "text/csv", "text/markdown", "text/x-python", "application/x-python-code",
   "application/json", "text/xml", "application/rtf", "text/rtf",
   "application/pdf"]

/-- The compatibility map of MIME types, verbatim from the source. -/
def formatMap : List (String × String) :=
  [("audio/mpeg", "audio/mp3"), ("video/quicktime", "video/mov")]

/-- JavaScript `formatMap[m] || m`. -/
def lookupFormat (m : String) : String := (formatMap.lookup m).getD m

/-- `formatMap[o] || o` lifted to a possibly-undefined MIME type. -/
def normalizeFormat (o : Option String) : Option String := o.map lookupFormat

/-- `supportedFileFormats.includes(o)` on a possibly-undefined value. -/
def isSupported : Option String → Bool
  | some m => supportedFileFormats.contains m
  | none => false

/-- JavaScript truthiness of the `filePath` argument (a string is falsy
exactly when it is empty; `undefined` is falsy). -/
def pathTruthy : Option String → Bool
  | some p => p != ""
  | none => false

/-- JavaScript `s.startsWith(pre)`, embedded as a prefix test on the
character lists (extensionally the same test, but the kernel can
evaluate it). -/
def strStartsWith (s pre : String) : Bool :=
  pre.data.isPrefixOf s.data

deriving instance DecidableEq for Except

/-- The environment standing for the external libraries and the remote
file service used by the embedded functions. -/
structure Env where
  sniff : List Nat → Option String
  extOf : String → Option String
  upload : List Nat → String → String

/-- The classification stage of `getFileType`: sniff the buffer, apply
the compatibility map, and if the result is unsupported and a truthy
path hint is present, fall back to extension lookup (again mapped). -/
def classify (env : Env) (buffer : List Nat) (filePath : Option String) :
    Option String :=
  let format := normalizeFormat (env.sniff buffer)
  if !isSupported format && pathTruthy filePath then
    normalizeFormat (env.extOf (filePath.getD ""))
  else
    format

/-- The error message thrown by `getFileType` in strict mode, verbatim. -/
def unsupportedFormatMsg : String :=
  "Please provide a valid file format that is accepted by Gemini. Learn more about valid formats here: https://ai.google.dev/gemini-api/docs/prompting_with_media?lang=node#supported_file_formats"

/-- Embedding of `getFileType(buffer, filePath, { strict })`: classify,
then either return the supported format, throw in strict mode, or
default to "text/plain". -/
def getFileType (env : Env) (buffer : List Nat) (filePath : Option String)
    (strict : Bool) : Except String String :=
  let format := classify env buffer filePath
  if !isSupported format then
    if strict then Except.error unsupportedFormatMsg
    else Except.ok "text/plain"
  else
    Except.ok (format.getD "text/plain")

/-- The value returned by `getFileType` with `strict = false` (which
never throws); used by `messageToParts`, whose calls omit `strict`. -/
def getFileTypeNS (env : Env) (buffer : List Nat) (filePath : Option String) :
    String :=
  let format := classify env buffer filePath
  if isSupported format then format.getD "text/plain" else "text/plain"

/-- A Gemini API part: exactly one of text, inline data, or file data. -/
inductive Part where
  | text (s : String)
  | inlineData (mimeType : String) (data : List Nat)
  | fileData (mimeType : String) (fileUri : String)
deriving DecidableEq

/-- One element of the heterogeneous input list of `messageToParts`:
a string, a raw binary buffer (`ArrayBuffer` or `Uint8Array`), an object
with `buffer` and `filePath` fields (the `FileUpload` shape; the
`buffer` field, being an object, is always truthy), or any other value. -/
inductive InMsg where
  | str (s : String)
  | bytes (b : List Nat)
  | fileUpload (buffer : List Nat) (filePath : String)
  | other
deriving DecidableEq

/-- Embedding of `isFileUpload(data)`: `data && data.buffer && data.filePath`,
true exactly for a buffer-and-path object whose path is truthy. -/
def isFileUpload : InMsg → Bool
  | .fileUpload _ p => p != ""
  | _ => false

/-- The binary branch of the `messageToParts` loop body: add the buffer
size to the running total, classify the MIME type (non-strict), and emit
either an inline-data part or, for video, an uploaded file-data part. -/
def stepBinary (env : Env) (acc : List Part × Nat) (buffer : List Nat)
    (filePath : Option String) : List Part × Nat :=
  let totalBytes := acc.2 + buffer.length
  let mimeType := getFileTypeNS env buffer filePath
  if !strStartsWith mimeType "video" then
    (acc.1 ++ [Part.inlineData mimeType buffer], totalBytes)
  else
    (acc.1 ++ [Part.fileData mimeType (env.upload buffer mimeType)], totalBytes)

/-- The body of the `for (const msg of messages)` loop of
`messageToParts`: strings become text parts; `ArrayBuffer`/`Uint8Array`
values and values passing `isFileUpload` take the binary branch; other
values fall through all the type tests and contribute nothing. -/
def stepMsg (env : Env) (acc : List Part × Nat) (msg : InMsg) :
    List Part × Nat :=
  match msg with
  | .str s => (acc.1 ++ [Part.text s], acc.2)
  | .bytes b => stepBinary env acc b none
  | .fileUpload b p =>
      if isFileUpload (.fileUpload b p) then stepBinary env acc b (some p)
      else acc
  | .other => acc

/-- The first pass of `messageToParts`: the loop over the input list,
accumulating the parts array and `totalBytes`. -/
def assemble (env : Env) (messages : List InMsg) : List Part × Nat :=
  messages.foldl (stepMsg env) ([], 0)

/-- The inline-payload size threshold of the post-pass: `20 * 1024 * 1024`. -/
def THRESHOLD : Nat := 20 * 1024 * 1024

/-- The post-pass promotion of one part: an inline-data part is
re-submitted through `uploadFile` (same decoded bytes, same MIME type)
and replaced by a file-data part; any other part is left alone. -/
def promote (env : Env) : Part → Part
  | .inlineData m d => Part.fileData m (env.upload d m)
  | p => p

/-- Embedding of `Gemini.messageToParts(messages)`: the loop, then, if
`totalBytes` exceeds the threshold, the in-place promotion of every
inline-data part. -/
def messageToParts (env : Env) (messages : List InMsg) : List Part :=
  let res := assemble env messages
  if res.2 > THRESHOLD then res.1.map (promote env) else res.1

/-- The parts emitted by the loop body for one input element (the loop
appends exactly this list for that element). -/
def partsOf1 (env : Env) : InMsg → List Part
  | .str s => [Part.text s]
  | .bytes b =>
      let mimeType := getFileTypeNS env b none
      if !strStartsWith mimeType "video" then [Part.inlineData mimeType b]
      else [Part.fileData mimeType (env.upload b mimeType)]
  | .fileUpload b p =>
      if isFileUpload (.fileUpload b p) then
        let mimeType := getFileTypeNS env b (some p)
        if !strStartsWith mimeType "video" then [Part.inlineData mimeType b]
        else [Part.fileData mimeType (env.upload b mimeType)]
      else []
  | .other => []

/-- The number of bytes one input element adds to `totalBytes`. -/
def bytesOf1 : InMsg → Nat
  | .str _ => 0
  | .bytes b => b.length
  | .fileUpload b p => if isFileUpload (.fileUpload b p) then b.length else 0
  | .other => 0

/-- The parts emitted by the first pass, in input order. -/
def flatParts (env : Env) (messages : List InMsg) : List Part :=
  messages.flatMap (partsOf1 env)

/-- The value of `totalBytes` after the loop: the summed sizes of the
binary inputs that enter the binary branch. -/
def sumBytes (messages : List InMsg) : Nat :=
  (messages.map bytesOf1).sum


/-!
## The polling loop of `Gemini.uploadFile`

The loop repeatedly queries the file status endpoint. Each response is
either an error object, the ACTIVE state, or any other (still
processing) state. The loop is driven here by the list of responses the
service returns, and the run is recorded as a trace of events: the one
initial upload request, the status queries, and the sleeps (in
milliseconds, exact rationals since every value involved is a small
dyadic rational that JavaScript floats represent exactly). -/

/-- One response of the status endpoint, as the loop discriminates it:
`data.error` present, `data.state === "ACTIVE"`, or anything else. -/
inductive PollStatus where
  | failure (msg : String)
  | active
  | processing
deriving DecidableEq

/-- One observable event of an `uploadFile` run. -/
inductive Ev where
  | uploadReq
  | query
  | sleep (ms : ℚ)
deriving DecidableEq

/-- The outcome of an `uploadFile` run: the returned URI, a thrown
error message, or still pending when the response list ran out while
the file was processing. -/
inductive PollResult where
  | ok (uri : String)
  | failed (msg : String)
  | pending
deriving DecidableEq

/-- `MAX_BACKOFF = 5000` milliseconds, from the source. -/
def MAX_BACKOFF : ℚ := 5000

/-- The error message raised when the status response carries an error:
the inner throw is caught by the surrounding catch block and re-thrown
wrapped, so the final message nests both texts around the
service-reported message. -/
def processingFailedMsg (m : String) : String :=
  "An error occurred while uploading to Google\x27s File API: Google\x27s File API responded with an error: " ++ m

/-- The `while (true)` polling loop of `uploadFile`: query the status;
on an error response throw (wrapped by the catch block); on ACTIVE
break; otherwise sleep `waitTime` and continue with
`waitTime = min(waitTime * 1.5, MAX_BACKOFF)`. -/
def pollLoop (uri : String) (waitTime : ℚ) :
    List PollStatus → List Ev × PollResult
  | [] => ([], PollResult.pending)
  | PollStatus.failure m :: _ =>
      ([Ev.query], PollResult.failed (processingFailedMsg m))
  | PollStatus.active :: _ => ([Ev.query], PollResult.ok uri)
  | PollStatus.processing :: rest =>
      let r := pollLoop uri (min (waitTime * (3 / 2)) MAX_BACKOFF) rest
      (Ev.query :: Ev.sleep waitTime :: r.1, r.2)

/-- Embedding of `Gemini.uploadFile`: one multipart upload request
(whose response yields the file name and URI), then the polling loop
with initial `waitTime = 250`. -/
def uploadFile (uri : String) (polls : List PollStatus) :
    List Ev × PollResult :=
  let r := pollLoop uri 250 polls
  (Ev.uploadReq :: r.1, r.2)

/-- The sleeps of a trace, in order. -/
def sleepsOf (evs : List Ev) : List ℚ :=
  evs.filterMap fun e => match e with | Ev.sleep w => some w | _ => none

/-- The number of status queries in a trace. -/
def queriesOf (evs : List Ev) : Nat :=
  evs.countP fun e => match e with | Ev.query => true | _ => false

/-- The number of upload requests in a trace. -/
def uploadsOf (evs : List Ev) : Nat :=
  evs.countP fun e => match e with | Ev.uploadReq => true | _ => false

/-- The wait time in force when the (n+1)-st status query is made. -/
def waitSeq : Nat → ℚ
  | 0 => 250
  | n + 1 => min (waitSeq n * (3 / 2)) MAX_BACKOFF

/-!
## The `Chat` session and the request facade

`Chat.ask` and `Chat.askStream` build the merged option record and
forward to `Gemini.ask` / `Gemini.askStream`, which send a request to
the wrapped client; the chat state is returned unchanged (the source
methods never reassign or mutate `this.history`, they only read it).
Config payloads that are passed through opaquely are modelled as
strings. -/

/-- A history entry: `{ role, parts }`. -/
structure Content where
  role : String
  parts : List Part
deriving DecidableEq

/-- The `AskOptions` record; absent fields are `none`. -/
structure AskOptions where
  model : Option String := none
  history : Option (List Content) := none
  generationConfig : Option String := none
  safetySettings : Option String := none
  systemInstruction : Option Content := none
deriving DecidableEq

/-- JavaScript `{ ...a, ...b }` on two option records (a field present
in `b` wins). -/
def mergeOptions (a b : AskOptions) : AskOptions :=
  { model := b.model <|> a.model,
    history := b.history <|> a.history,
    generationConfig := b.generationConfig <|> a.generationConfig,
    safetySettings := b.safetySettings <|> a.safetySettings,
    systemInstruction := b.systemInstruction <|> a.systemInstruction }

/-- The message argument of `ask`: a string or a parts array. -/
inductive MsgInput where
  | str (s : String)
  | parts (ps : List Part)
deriving DecidableEq

/-- The request `Gemini.ask` hands to the wrapped client: the chat is
started with the given history and configs, and the parts are sent. -/
structure GenRequest where
  parts : List Part
  history : List Content
  generationConfig : Option String
  safetySettings : Option String
  systemInstruction : Option Content
deriving DecidableEq

/-- Embedding of `Gemini.ask` (and `Gemini.askStream`, which builds the
identical request): wrap a string message as one text part, default the
history to `[]`, and forward everything to the wrapped client. -/
def Gemini.ask (message : MsgInput) (options : AskOptions) : GenRequest :=
  { parts := match message with
      | MsgInput.str s => [Part.text s]
      | MsgInput.parts ps => ps,
    history := options.history.getD [],
    generationConfig := options.generationConfig,
    safetySettings := options.safetySettings,
    systemInstruction := options.systemInstruction }

/-- A chat session: the history list and the options given at creation. -/
structure Chat where
  history : List Content
  options : AskOptions
deriving DecidableEq

/-- Embedding of `Gemini.createChat(options)` /
`new Chat(gemini, options)`: `this.history = options.history || []`. -/
def Gemini.createChat (options : AskOptions) : Chat :=
  { history := options.history.getD [], options := options }

/-- Embedding of `Chat.appendMessage(message)`:
`this.history.push(message)`. -/
def Chat.appendMessage (c : Chat) (message : Content) : Chat :=
  { c with history := c.history ++ [message] }

/-- Embedding of `Chat.ask`: merge the session options with the call
options, put the session history underneath (`{ history: this.history,
...mergedOptions }`), and forward to `Gemini.ask`. The chat state comes
back unchanged. -/
def Chat.ask (c : Chat) (message : MsgInput) (options : AskOptions) :
    GenRequest × Chat :=
  let mergedOptions := mergeOptions c.options options
  (Gemini.ask message
    { mergedOptions with
        history := mergedOptions.history <|> some c.history }, c)

/-- Embedding of `Chat.askStream`: identical option handling. -/
def Chat.askStream (c : Chat) (message : MsgInput) (options : AskOptions) :
    GenRequest × Chat :=
  let mergedOptions := mergeOptions c.options options
  (Gemini.ask message
    { mergedOptions with
        history := mergedOptions.history <|> some c.history }, c)

/-- State-passing form of `getFileType` over an arbitrary state type:
classification performs no write to any observable state. -/
def getFileTypeM (env : Env) {σ : Type} (buffer : List Nat)
    (filePath : Option String) (strict : Bool) (s : σ) :
    Except String String × σ :=
  (getFileType env buffer filePath strict, s)

/-- The inputs that pass one of the type tests of the loop body (and so
contribute a part): strings, raw buffers, and values passing
`isFileUpload`. -/
def accepted : InMsg → Bool
  | .str _ => true
  | .bytes _ => true
  | .fileUpload b p => isFileUpload (.fileUpload b p)
  | .other => false

/-- The buffer and path hint the binary branch extracts from an input,
when the input takes that branch. -/
def binArgs : InMsg → Option (List Nat × Option String)
  | .bytes b => some (b, none)
  | .fileUpload b p =>
      if isFileUpload (.fileUpload b p) then some (b, some p) else none
  | _ => none

/-- No input of the list is classified as a video type. -/
def noVideo (env : Env) (messages : List InMsg) : Prop :=
  ∀ msg ∈ messages, ∀ a, binArgs msg = some a →
    strStartsWith (getFileTypeNS env a.1 a.2) "video" = false

/-- The contribution of one input to the running total as the SPEC
describes it (for comparison with the code): only inputs emitted as
inline-data parts count, a video-classified input contributes nothing.
Modelled from the spec, not from the source. -/
def specInlineBytesOf1 (env : Env) (msg : InMsg) : Nat :=
  match binArgs msg with
  | some a =>
      if strStartsWith (getFileTypeNS env a.1 a.2) "video" then 0
      else a.1.length
  | none => 0

/-- The running total as the SPEC describes it: the cumulative size of
the inputs emitted as inline-data parts. Modelled from the spec, not
from the source. -/
def specInlineTotal (env : Env) (messages : List InMsg) : Nat :=
  (messages.map (specInlineBytesOf1 env)).sum

/-- The post-pass of `messageToParts` as a function of the first-pass
parts and total. -/
def postPass (env : Env) (ps : List Part) (totalBytes : Nat) : List Part :=
  if totalBytes > THRESHOLD then ps.map (promote env) else ps

/-- A part is one of the two binary variants (inline data or file
data). A `Part` value is built by exactly one constructor, so a binary
part is never also a text part and never both variants at once. -/
def isBinaryPart : Part → Bool
  | .text _ => false
  | _ => true

/-- The validity bit `getFileType` computes before its final branch. -/
def classifyValid (env : Env) (b : List Nat) (fp : Option String) : Bool :=
  isSupported (classify env b fp)

/-- A fixed environment whose sniffer reports PNG for every buffer. -/
def envPng : Env :=
  { sniff := fun _ => some "image/png", extOf := fun _ => none,
    upload := fun _ _ => "uri://remote" }

/-- A fixed environment whose sniffer reports MP4 video for every buffer. -/
def envVid : Env :=
  { sniff := fun _ => some "video/mp4", extOf := fun _ => none,
    upload := fun _ _ => "uri://remote" }

/-- A fixed environment whose sniffer reports QuickTime for every buffer. -/
def envQt : Env :=
  { sniff := fun _ => some "video/quicktime", extOf := fun _ => none,
    upload := fun _ _ => "uri://remote" }

/-- A fixed environment that never determines a type. -/
def envNone : Env :=
  { sniff := fun _ => none, extOf := fun _ => none,
    upload := fun _ _ => "uri://remote" }

/-- A buffer one byte past the 20 MiB threshold. -/
def bigBuf : List Nat := List.replicate (THRESHOLD + 1) 0

/-! ## Supporting lemmas -/

lemma stepMsg_eq (env : Env) (acc : List Part × Nat) (msg : InMsg) :
    stepMsg env acc msg = (acc.1 ++ partsOf1 env msg, acc.2 + bytesOf1 msg) := by
  cases msg with
  | str s => simp [stepMsg, partsOf1, bytesOf1]
  | bytes b =>
      simp only [stepMsg, stepBinary, partsOf1, bytesOf1]
      split <;> simp
  | fileUpload b p =>
      simp only [stepMsg, stepBinary, partsOf1, bytesOf1]
      by_cases h : isFileUpload (.fileUpload b p)
      · simp only [h, if_true]
        split <;> simp
      · simp [h]
  | other => simp [stepMsg, partsOf1, bytesOf1]

lemma assemble_loop (env : Env) (messages : List InMsg) :
    ∀ (ps : List Part) (t : Nat),
      messages.foldl (stepMsg env) (ps, t)
        = (ps ++ flatParts env messages, t + sumBytes messages) := by
  induction messages with
  | nil => intro ps t; simp [flatParts, sumBytes]
  | cons msg rest ih =>
      intro ps t
      simp only [List.foldl_cons, stepMsg_eq]
      rw [ih]
      simp [flatParts, sumBytes, Nat.add_assoc]

/-- Structure of `assemble`: parts come per-input in input order, and
`totalBytes` is the sum of the per-input contributions. -/
lemma assemble_eq (env : Env) (messages : List InMsg) :
    assemble env messages = (flatParts env messages, sumBytes messages) := by
  simpa using assemble_loop env messages [] 0

/-- `messageToParts` in terms of the first-pass parts and total. -/
lemma messageToParts_eq (env : Env) (messages : List InMsg) :
    messageToParts env messages =
      if sumBytes messages > THRESHOLD then
        (flatParts env messages).map (promote env)
      else flatParts env messages := by
  simp [messageToParts, assemble_eq]

lemma getFileType_nonstrict (env : Env) (b : List Nat) (fp : Option String) :
    getFileType env b fp false = Except.ok (getFileTypeNS env b fp) := by
  by_cases h : isSupported (classify env b fp) <;>
    simp [getFileType, getFileTypeNS, h]

lemma isSupported_getD (o : Option String) (h : isSupported o = true) :
    o.getD "text/plain" ∈ supportedFileFormats := by
  cases o with
  | none => simp [isSupported] at h
  | some m =>
      simp only [isSupported] at h
      obtain ⟨x, hx, he⟩ := List.contains_iff_exists_mem_beq.mp h
      have hmx : m = x := eq_of_beq he
      simpa [hmx] using hx

lemma minCapMul (x : ℚ) (_hx : 0 ≤ x) :
    min (min x 5000 * (3 / 2)) 5000 = min (x * (3 / 2)) 5000 := by
  rcases le_total x 5000 with h | h
  · rw [min_eq_left h]
  · rw [min_eq_right h]
    have h2 : (5000 : ℚ) ≤ x * (3 / 2) := by nlinarith
    rw [min_eq_right (by norm_num : (5000 : ℚ) ≤ 5000 * (3 / 2)),
        min_eq_right h2]

/-- Closed form of the backoff sequence. -/
lemma waitSeq_closed (n : Nat) :
    waitSeq n = min ((250 : ℚ) * (3 / 2) ^ n) 5000 := by
  induction n with
  | zero =>
      show (250 : ℚ) = min ((250 : ℚ) * (3 / 2) ^ 0) 5000
      norm_num
  | succ n ih =>
      show min (waitSeq n * (3 / 2)) MAX_BACKOFF = _
      rw [MAX_BACKOFF, ih, minCapMul _ (by positivity), pow_succ]
      ring_nf

lemma pollLoop_processing (uri : String) (w : ℚ) (rest : List PollStatus) :
    pollLoop uri w (PollStatus.processing :: rest)
      = (Ev.query :: Ev.sleep w ::
           (pollLoop uri (min (w * (3 / 2)) MAX_BACKOFF) rest).1,
         (pollLoop uri (min (w * (3 / 2)) MAX_BACKOFF) rest).2) := rfl

lemma sleepsOf_query_sleep (w : ℚ) (evs : List Ev) :
    sleepsOf (Ev.query :: Ev.sleep w :: evs) = w :: sleepsOf evs := rfl

/-- The sleeps recorded across a run of `n` still-processing responses:
the backoff sequence, whatever the later responses are. -/
lemma pollLoop_sleeps (uri : String) (rest : List PollStatus) :
    ∀ (n k : Nat),
      sleepsOf (pollLoop uri (waitSeq k)
          (List.replicate n PollStatus.processing ++ rest)).1
        = (List.range n).map (fun i => waitSeq (k + i))
            ++ sleepsOf (pollLoop uri (waitSeq (k + n)) rest).1 := by
  intro n
  induction n with
  | zero => intro k; simp
  | succ n ih =>
      intro k
      have hadd : k + 1 + n = k + (n + 1) := by omega
      rw [List.replicate_succ, List.cons_append, pollLoop_processing]
      have hw : min (waitSeq k * (3 / 2)) MAX_BACKOFF = waitSeq (k + 1) := rfl
      rw [hw, sleepsOf_query_sleep, ih (k + 1), hadd, List.range_succ_eq_map,
        List.map_cons, List.map_map, List.cons_append]
      have hfun : ((fun i => waitSeq (k + i)) ∘ Nat.succ)
          = fun i => waitSeq (k + 1 + i) := by
        funext i
        simp only [Function.comp_apply]
        exact congrArg waitSeq (by omega)
      rw [hfun]
      simp

/-- After `n` still-processing responses and then an error response, the
run is over: the remaining responses are never queried, the result is
the wrapped failure, `n + 1` status queries were made in total, and the
loop itself issues no upload request. -/
lemma pollLoop_error (uri : String) (m : String) (rest : List PollStatus) :
    ∀ (n : Nat) (w : ℚ),
      pollLoop uri w (List.replicate n PollStatus.processing
          ++ PollStatus.failure m :: rest)
        = pollLoop uri w (List.replicate n PollStatus.processing
            ++ [PollStatus.failure m])
      ∧ (pollLoop uri w (List.replicate n PollStatus.processing
          ++ PollStatus.failure m :: rest)).2
          = PollResult.failed (processingFailedMsg m)
      ∧ queriesOf (pollLoop uri w (List.replicate n PollStatus.processing
          ++ PollStatus.failure m :: rest)).1 = n + 1
      ∧ uploadsOf (pollLoop uri w (List.replicate n PollStatus.processing
          ++ PollStatus.failure m :: rest)).1 = 0 := by
  intro n
  induction n with
  | zero =>
      intro w
      refine ⟨rfl, rfl, ?_, ?_⟩ <;> simp [pollLoop, queriesOf, uploadsOf]
  | succ n ih =>
      intro w
      rw [List.replicate_succ, List.cons_append, List.cons_append,
        pollLoop_processing, pollLoop_processing]
      obtain ⟨h1, h2, h3, h4⟩ := ih (min (w * (3 / 2)) MAX_BACKOFF)
      refine ⟨?_, ?_, ?_, ?_⟩
      · rw [h1]
      · exact h2
      · simp [queriesOf, List.countP_cons] at h3 ⊢
        omega
      · simp [uploadsOf, List.countP_cons] at h4 ⊢
        exact h4


lemma partsOf1_not_accepted (env : Env) (msg : InMsg)
    (h : accepted msg = false) : partsOf1 env msg = [] := by
  cases msg with
  | str s => simp [accepted] at h
  | bytes b => simp [accepted] at h
  | fileUpload b p => simp_all [accepted, partsOf1]
  | other => rfl

lemma bytesOf1_not_accepted (msg : InMsg) (h : accepted msg = false) :
    bytesOf1 msg = 0 := by
  cases msg with
  | str s => rfl
  | bytes b => simp [accepted] at h
  | fileUpload b p => simp_all [accepted, bytesOf1]
  | other => rfl

lemma flatParts_filter (env : Env) (messages : List InMsg) :
    flatParts env (messages.filter accepted) = flatParts env messages := by
  induction messages with
  | nil => rfl
  | cons msg rest ih =>
      by_cases h : accepted msg
      · simp [flatParts, List.filter_cons, h] at ih ⊢
        exact ih
      · simp only [Bool.not_eq_true] at h
        simp [flatParts, List.filter_cons, h,
          partsOf1_not_accepted env msg h] at ih ⊢
        exact ih

lemma sumBytes_filter (messages : List InMsg) :
    sumBytes (messages.filter accepted) = sumBytes messages := by
  induction messages with
  | nil => rfl
  | cons msg rest ih =>
      by_cases h : accepted msg
      · simp [sumBytes, List.filter_cons, h] at ih ⊢
        exact ih
      · simp only [Bool.not_eq_true] at h
        simp [sumBytes, List.filter_cons, h,
          bytesOf1_not_accepted msg h] at ih ⊢
        exact ih

lemma partsOf1_length_le (env : Env) (msg : InMsg) :
    (partsOf1 env msg).length ≤ 1 := by
  cases msg with
  | str s => simp [partsOf1]
  | bytes b => simp only [partsOf1]; split <;> simp
  | fileUpload b p =>
      simp only [partsOf1]
      split
      · split <;> simp
      · simp
  | other => simp [partsOf1]

lemma flatParts_length_le (env : Env) (messages : List InMsg) :
    (flatParts env messages).length ≤ messages.length := by
  induction messages with
  | nil => simp [flatParts]
  | cons msg rest ih =>
      simp only [flatParts, List.flatMap_cons, List.length_append,
        List.length_cons] at ih ⊢
      have := partsOf1_length_le env msg
      omega

/-- With no video input, the first pass emits only text and inline
parts. -/
lemma flatParts_noVideo (env : Env) (messages : List InMsg)
    (h : noVideo env messages) :
    ∀ p ∈ flatParts env messages, ∀ mt u, p ≠ Part.fileData mt u := by
  intro p hp mt u
  rw [flatParts, List.mem_flatMap] at hp
  obtain ⟨msg, hmsg, hpmsg⟩ := hp
  cases msg with
  | str s =>
      simp only [partsOf1, List.mem_singleton] at hpmsg
      simp [hpmsg]
  | bytes b =>
      have hv := h _ hmsg (b, none) rfl
      simp only [partsOf1, hv, Bool.not_false, if_true,
        List.mem_singleton] at hpmsg
      simp [hpmsg]
  | fileUpload b q =>
      by_cases hf : isFileUpload (.fileUpload b q)
      · have hv := h _ hmsg (b, some q) (by simp [binArgs, hf])
        simp only [partsOf1, hf, if_true, hv, Bool.not_false,
          List.mem_singleton] at hpmsg
        simp [hpmsg]
      · simp only [Bool.not_eq_true] at hf
        simp [partsOf1, hf] at hpmsg
  | other => simp [partsOf1] at hpmsg

/-- With no video input, no part of the first pass is a file-data part,
so every binary part is inline. -/
lemma flatParts_noVideo_inline (env : Env) (messages : List InMsg)
    (h : noVideo env messages) :
    ∀ p ∈ flatParts env messages,
      (∃ s, p = Part.text s) ∨ ∃ mt d, p = Part.inlineData mt d := by
  intro p hp
  cases p with
  | text s => exact Or.inl ⟨s, rfl⟩
  | inlineData mt d => exact Or.inr ⟨mt, d, rfl⟩
  | fileData mt u =>
      exact absurd rfl (flatParts_noVideo env messages h _ hp mt u)

lemma getFileTypeNS_mem (env : Env) (b : List Nat) (fp : Option String) :
    getFileTypeNS env b fp ∈ supportedFileFormats := by
  cases h : isSupported (classify env b fp) with
  | false =>
      simp only [getFileTypeNS, h, Bool.false_eq_true, if_false]
      decide
  | true =>
      simp only [getFileTypeNS, h, if_true]
      exact isSupported_getD _ h

lemma sleepsOf_uploadFile (uri : String) (polls : List PollStatus) :
    sleepsOf (uploadFile uri polls).1 = sleepsOf (pollLoop uri 250 polls).1 :=
  rfl

lemma queriesOf_uploadReq_cons (evs : List Ev) :
    queriesOf (Ev.uploadReq :: evs) = queriesOf evs := by
  simp [queriesOf, List.countP_cons]

lemma uploadsOf_uploadReq_cons (evs : List Ev) :
    uploadsOf (Ev.uploadReq :: evs) = uploadsOf evs + 1 := by
  simp [uploadsOf, List.countP_cons]

/-- The polling loop issues status queries only, never an upload
request. -/
lemma pollLoop_no_upload (uri : String) :
    ∀ (polls : List PollStatus) (w : ℚ),
      uploadsOf (pollLoop uri w polls).1 = 0 := by
  intro polls
  induction polls with
  | nil => intro w; rfl
  | cons s rest ih =>
      intro w
      cases s with
      | failure m => simp [pollLoop, uploadsOf, List.countP_cons]
      | active => simp [pollLoop, uploadsOf, List.countP_cons]
      | processing =>
          rw [pollLoop_processing]
          simp only [uploadsOf, List.countP_cons] at ih ⊢
          simpa using ih (min (w * (3 / 2)) MAX_BACKOFF)

/-! ## Claim theorems -/

/-- C1: For every input list passed to `messageToParts`, if the
cumulative byte total of the call strictly exceeds `20 * 1024 * 1024`
bytes, then every inline-data part produced in the call is re-submitted
through the upload dispatcher and replaced in place by a file-data part
carrying the same MIME type and the returned remote URI; and if the
total is at or under the threshold and no input is classified as video,
every binary input remains an inline-data part. -/
theorem c1_threshold_promotion (env : Env) (messages : List InMsg) :
    (sumBytes messages > THRESHOLD →
       messageToParts env messages = (flatParts env messages).map (promote env)
       ∧ ∀ mt d, promote env (Part.inlineData mt d)
           = Part.fileData mt (env.upload d mt))
    ∧ (sumBytes messages ≤ THRESHOLD → noVideo env messages →
       messageToParts env messages = flatParts env messages
       ∧ ∀ p ∈ messageToParts env messages,
           (∃ s, p = Part.text s) ∨ ∃ mt d, p = Part.inlineData mt d) := by
  constructor
  · intro h
    refine ⟨?_, fun mt d => rfl⟩
    rw [messageToParts_eq, if_pos h]
  · intro h hv
    have hEq : messageToParts env messages = flatParts env messages := by
      rw [messageToParts_eq, if_neg (by omega)]
    refine ⟨hEq, ?_⟩
    rw [hEq]
    exact flatParts_noVideo_inline env messages hv

/-- Witness for C1 at concrete inputs: a single 20 MiB + 1 byte PNG
buffer crosses the threshold and is promoted; a one-byte PNG buffer
stays inline. -/
theorem c1_threshold_promotion_witness :
    (sumBytes [InMsg.bytes bigBuf] > THRESHOLD
      ∧ (messageToParts envPng [InMsg.bytes bigBuf]
           = (flatParts envPng [InMsg.bytes bigBuf]).map (promote envPng)
         ∧ ∀ mt d, promote envPng (Part.inlineData mt d)
             = Part.fileData mt (envPng.upload d mt)))
    ∧ (sumBytes [InMsg.bytes [7]] ≤ THRESHOLD
      ∧ noVideo envPng [InMsg.bytes [7]]
      ∧ (messageToParts envPng [InMsg.bytes [7]]
           = flatParts envPng [InMsg.bytes [7]]
         ∧ ∀ p ∈ messageToParts envPng [InMsg.bytes [7]],
             (∃ s, p = Part.text s) ∨ ∃ mt d, p = Part.inlineData mt d)) := by
  have hbig : sumBytes [InMsg.bytes bigBuf] > THRESHOLD := by
    simp [sumBytes, bytesOf1, bigBuf]
  have hsmall : sumBytes [InMsg.bytes [7]] ≤ THRESHOLD := by decide
  have hnv : noVideo envPng [InMsg.bytes [7]] := by
    intro msg hmsg a ha
    rw [List.mem_singleton] at hmsg
    subst hmsg
    simp only [binArgs, Option.some.injEq] at ha
    subst ha
    decide
  exact ⟨⟨hbig, (c1_threshold_promotion envPng _).1 hbig⟩,
    ⟨hsmall, hnv, (c1_threshold_promotion envPng _).2 hsmall hnv⟩⟩

/-- C2 counterexample: the code adds the buffer size to `totalBytes`
BEFORE the video check, so a video-classified input does add its size
to the running total, while the spec total (inline parts only) gives
zero for the same input. -/
theorem c2_counterexample :
    (assemble envVid [InMsg.bytes [0]]).2 = 1
    ∧ specInlineTotal envVid [InMsg.bytes [0]] = 0
    ∧ (assemble envVid [InMsg.bytes [0]]).2
        ≠ specInlineTotal envVid [InMsg.bytes [0]] := by
  refine ⟨?_, ?_, ?_⟩ <;> decide

/-- C2 (amended): the running total compared against the threshold
counts the size of EVERY input that takes the binary branch, video
inputs included, and is therefore independent of how any input is
classified. -/
theorem c2_total_counts_all_binaries (env env2 : Env)
    (messages : List InMsg) :
    (assemble env messages).2 = sumBytes messages
    ∧ (assemble env messages).2 = (assemble env2 messages).2 := by
  constructor
  · rw [assemble_eq]
  · rw [assemble_eq, assemble_eq]

/-- C3 counterexample: a `FileUpload` whose `filePath` is the empty
string is a binary input, yet it fails `isFileUpload` and yields no
part at all, not exactly one. -/
theorem c3_counterexample :
    messageToParts envPng [InMsg.fileUpload [0] ""] = []
    ∧ (messageToParts envPng [InMsg.fileUpload [0] ""]).length ≠ 1 := by
  refine ⟨?_, ?_⟩ <;> decide

/-- C3 (amended): `messageToParts` preserves the order of the inputs in
the output parts; every string input yields a text part; every raw
bytes input, and every FileUpload passing the `isFileUpload` check
(non-empty `filePath`), yields exactly one part that is either an
inline-data part or a file-data part, never both and never a text part
(the post-pass keeps binary parts binary and text parts untouched). -/
theorem c3_order_and_tags (env : Env) (messages : List InMsg) :
    messageToParts env messages
      = postPass env (messages.flatMap (partsOf1 env)) (sumBytes messages)
    ∧ (∀ s, partsOf1 env (InMsg.str s) = [Part.text s])
    ∧ (∀ b, ∃ part, partsOf1 env (InMsg.bytes b) = [part]
        ∧ isBinaryPart part = true)
    ∧ (∀ b p, p ≠ "" →
        ∃ part, partsOf1 env (InMsg.fileUpload b p) = [part]
          ∧ isBinaryPart part = true)
    ∧ (∀ part, isBinaryPart (promote env part) = isBinaryPart part)
    ∧ (∀ s, promote env (Part.text s) = Part.text s) := by
  refine ⟨?_, fun s => rfl, ?_, ?_, ?_, fun s => rfl⟩
  · rw [messageToParts_eq]; rfl
  · intro b
    simp only [partsOf1]
    split
    · exact ⟨_, rfl, rfl⟩
    · exact ⟨_, rfl, rfl⟩
  · intro b p hp
    have hf : isFileUpload (.fileUpload b p) = true := by
      simp [isFileUpload, hp]
    simp only [partsOf1, hf, if_true]
    split
    · exact ⟨_, rfl, rfl⟩
    · exact ⟨_, rfl, rfl⟩
  · intro part
    cases part <;> rfl

/-- Witness for C3 (amended) at a concrete input: a one-byte FileUpload
with a non-empty path yields exactly one binary part. -/
theorem c3_order_and_tags_witness :
    ("a.png" : String) ≠ ""
    ∧ ∃ part, partsOf1 envPng (InMsg.fileUpload [0] "a.png") = [part]
        ∧ isBinaryPart part = true :=
  ⟨by decide, (c3_order_and_tags envPng []).2.2.2.1 [0] "a.png" (by decide)⟩

/-- C4: For every buffer and optional path hint: with strict mode on
and no supported type determined by content sniffing or extension
lookup, `getFileType` fails with the UnsupportedFormat error; with
strict mode off, the result is always a member of the supported-format
set, an undetermined or unsupported input yielding the generic default
"text/plain". -/
theorem c4_strict_vs_default (env : Env) (b : List Nat)
    (fp : Option String) :
    (classifyValid env b fp = false →
       getFileType env b fp true = Except.error unsupportedFormatMsg
       ∧ getFileType env b fp false = Except.ok "text/plain")
    ∧ ∀ m, getFileType env b fp false = Except.ok m →
        m ∈ supportedFileFormats := by
  constructor
  · intro h
    have h' : isSupported (classify env b fp) = false := h
    refine ⟨?_, ?_⟩ <;> simp [getFileType, h']
  · intro m hm
    rw [getFileType_nonstrict] at hm
    injection hm with h'
    rw [← h']
    exact getFileTypeNS_mem env b fp

/-- Witness for C4 at a concrete input: an environment that never
determines a type gives the strict error and the non-strict default. -/
theorem c4_strict_vs_default_witness :
    classifyValid envNone [0] none = false
    ∧ (getFileType envNone [0] none true = Except.error unsupportedFormatMsg
       ∧ getFileType envNone [0] none false = Except.ok "text/plain")
    ∧ "text/plain" ∈ supportedFileFormats :=
  ⟨by decide, (c4_strict_vs_default envNone [0] none).1 (by decide),
   (c4_strict_vs_default envNone [0] none).2 "text/plain" (by decide)⟩

/-- C5: A buffer whose sniffed MIME type is "video/quicktime" is
classified as "video/mov"; every binary input whose classified type
starts with "video" is routed directly to the upload dispatcher and
emitted as a file-data part; and that file-data part survives the
post-pass unchanged, regardless of size or of the cumulative total. -/
theorem c5_video_direct_upload (env : Env) (b : List Nat)
    (fp : Option String) :
    (env.sniff b = some "video/quicktime" →
       getFileTypeNS env b fp = "video/mov")
    ∧ (∀ m, getFileTypeNS env b none = m → strStartsWith m "video" = true →
        partsOf1 env (InMsg.bytes b) = [Part.fileData m (env.upload b m)])
    ∧ (∀ p m, p ≠ "" → getFileTypeNS env b (some p) = m →
        strStartsWith m "video" = true →
        partsOf1 env (InMsg.fileUpload b p)
          = [Part.fileData m (env.upload b m)])
    ∧ (∀ mt u, promote env (Part.fileData mt u) = Part.fileData mt u)
    ∧ (∀ messages mt u, Part.fileData mt u ∈ flatParts env messages →
        Part.fileData mt u ∈ messageToParts env messages) := by
  refine ⟨?_, ?_, ?_, fun mt u => rfl, ?_⟩
  · intro h
    have h1 : normalizeFormat (some "video/quicktime") = some "video/mov" := by
      decide
    have h2 : isSupported (some "video/mov") = true := by decide
    simp [getFileTypeNS, classify, h, h1, h2]
  · intro m hm hv
    subst hm
    simp [partsOf1, hv]
  · intro p m hp hm hv
    have hf : isFileUpload (.fileUpload b p) = true := by
      simp [isFileUpload, hp]
    subst hm
    simp [partsOf1, hf, hv]
  · intro messages mt u hmem
    rw [messageToParts_eq]
    split
    · exact List.mem_map.mpr ⟨Part.fileData mt u, hmem, rfl⟩
    · exact hmem

/-- Witness for C5 at a concrete input: a buffer sniffed as QuickTime
is classified "video/mov" and emitted directly as a file-data part. -/
theorem c5_video_direct_upload_witness :
    envQt.sniff [0] = some "video/quicktime"
    ∧ getFileTypeNS envQt [0] none = "video/mov"
    ∧ strStartsWith "video/mov" "video" = true
    ∧ partsOf1 envQt (InMsg.bytes [0])
        = [Part.fileData "video/mov" (envQt.upload [0] "video/mov")] :=
  ⟨rfl, (c5_video_direct_upload envQt [0] none).1 rfl, by decide,
   (c5_video_direct_upload envQt [0] none).2.1 "video/mov"
     ((c5_video_direct_upload envQt [0] none).1 rfl) (by decide)⟩

/-- C6: Across N consecutive polls that observe neither the active
state nor an error, the wait slept after the Nth such poll equals
`min(250 * 1.5 ^ (N - 1), 5000)` milliseconds. -/
theorem c6_backoff_law (uri : String) (n N : Nat) (rest : List PollStatus)
    (h1 : 1 ≤ N) (h2 : N ≤ n) :
    (sleepsOf (uploadFile uri
        (List.replicate n PollStatus.processing ++ rest)).1).getD (N - 1) 0
      = min ((250 : ℚ) * (3 / 2) ^ (N - 1)) 5000 := by
  have h0 : sleepsOf (uploadFile uri
        (List.replicate n PollStatus.processing ++ rest)).1
      = sleepsOf (pollLoop uri (waitSeq 0)
          (List.replicate n PollStatus.processing ++ rest)).1 := rfl
  rw [h0, pollLoop_sleeps uri rest n 0]
  have hN : N - 1 < n := by omega
  rw [List.getD_append _ _ _ _ (by simpa using hN)]
  rw [List.getD_eq_getElem?_getD, List.getElem?_map, List.getElem?_range hN]
  simp [waitSeq_closed]

/-- Witness for C6 at concrete inputs: with three still-processing
polls, the second wait is 375 ms. -/
theorem c6_backoff_law_witness :
    (1 ≤ 2 ∧ 2 ≤ 3)
    ∧ (sleepsOf (uploadFile "uri://remote"
        (List.replicate 3 PollStatus.processing ++ [])).1).getD (2 - 1) 0
      = min ((250 : ℚ) * (3 / 2) ^ (2 - 1)) 5000 :=
  ⟨⟨by decide, by decide⟩,
   c6_backoff_law "uri://remote" 3 2 [] (by decide) (by decide)⟩

/-- C7: If a status query returns an error after k still-processing
polls, the operation fails immediately with the wrapped error carrying
the service-reported message, exactly k + 1 status queries are made and
the later responses are never queried; and across the whole
`uploadFile` run the upload request itself appears exactly once in the
trace, for every response list. -/
theorem c7_error_stops_polling (uri m : String) (k : Nat)
    (rest : List PollStatus) :
    uploadFile uri (List.replicate k PollStatus.processing
        ++ PollStatus.failure m :: rest)
      = uploadFile uri (List.replicate k PollStatus.processing
          ++ [PollStatus.failure m])
    ∧ (uploadFile uri (List.replicate k PollStatus.processing
        ++ PollStatus.failure m :: rest)).2
        = PollResult.failed (processingFailedMsg m)
    ∧ queriesOf (uploadFile uri (List.replicate k PollStatus.processing
        ++ PollStatus.failure m :: rest)).1 = k + 1
    ∧ ∀ polls, uploadsOf (uploadFile uri polls).1 = 1 := by
  obtain ⟨h1, h2, h3, _⟩ := pollLoop_error uri m rest k 250
  refine ⟨?_, h2, ?_, ?_⟩
  · show (Ev.uploadReq :: _, _) = (Ev.uploadReq :: _, _)
    rw [h1]
  · show queriesOf (Ev.uploadReq :: _) = k + 1
    rw [queriesOf_uploadReq_cons]
    exact h3
  · intro polls
    show uploadsOf (Ev.uploadReq :: _) = 1
    rw [uploadsOf_uploadReq_cons, pollLoop_no_upload]

/-- C8: classification is deterministic and side-effect free: in the
state-passing reading, running `getFileType` twice on the same
arguments produces the same result, and the state after any number of
runs is the starting state. -/
theorem c8_deterministic_pure {σ : Type} (env : Env) (b : List Nat)
    (fp : Option String) (strict : Bool) (s : σ) :
    (getFileTypeM env b fp strict s).1
      = (getFileTypeM env b fp strict
          ((getFileTypeM env b fp strict s).2)).1
    ∧ (getFileTypeM env b fp strict
        ((getFileTypeM env b fp strict s).2)).2 = s :=
  ⟨rfl, rfl⟩

/-- C9: the chat history is append-only: `appendMessage` extends the
history by exactly one entry at the end, leaving the existing entries
and their order unchanged; `ask` and `askStream` return the chat state
untouched; `createChat` installs exactly the caller-given history. -/
theorem c9_history_append_only (c : Chat) (message : Content)
    (mi : MsgInput) (opts : AskOptions) :
    (c.appendMessage message).history = c.history ++ [message]
    ∧ (c.ask mi opts).2 = c
    ∧ (c.askStream mi opts).2 = c
    ∧ (Gemini.createChat opts).history = opts.history.getD [] :=
  ⟨rfl, rfl, rfl, rfl⟩

/-- C10: an input element that is neither a string, a raw buffer, nor
an object with truthy `buffer` and `filePath` fields is silently
skipped: it produces no part and raises no error, so the output may be
shorter than the input list; in particular a FileUpload with empty
`filePath` fails `isFileUpload` and is dropped. -/
theorem c10_unrecognized_inputs_skipped (env : Env)
    (messages : List InMsg) (b : List Nat) :
    messageToParts env (messages.filter accepted) = messageToParts env messages
    ∧ (messageToParts env messages).length ≤ messages.length
    ∧ partsOf1 env InMsg.other = []
    ∧ partsOf1 env (InMsg.fileUpload b "") = []
    ∧ isFileUpload (InMsg.fileUpload b "") = false
    ∧ messageToParts env [InMsg.other] = []
    ∧ messageToParts env [InMsg.fileUpload b ""] = [] := by
  refine ⟨?_, ?_, rfl, ?_, ?_, ?_, ?_⟩
  · rw [messageToParts_eq, messageToParts_eq, flatParts_filter,
      sumBytes_filter]
  · rw [messageToParts_eq]
    split
    · simpa using flatParts_length_le env messages
    · exact flatParts_length_le env messages
  · simp [partsOf1, isFileUpload]
  · simp [isFileUpload]
  · rfl
  · rw [messageToParts_eq]
    have hp : partsOf1 env (InMsg.fileUpload b "") = [] := by
      simp [partsOf1, isFileUpload]
    have hb : bytesOf1 (InMsg.fileUpload b "") = 0 := by
      simp [bytesOf1, isFileUpload]
    simp [flatParts, sumBytes, hp, hb, THRESHOLD]

end GeminiSDK
